import Mathlib

/-!
A verification development for the Twitter content deleter
(`src/tweety.py`).  The remote API, the GUI and the logger are modelled at
their interface boundary: remote per-item call outcomes are an oracle
`ok : Nat → Bool` on item ids, the paginated fetcher is a list of pages,
and each engine returns the observable state (counters plus the list of
items for which a delete/unlike call was issued).  Timestamps handed to the
engines are instants on an integer timeline (UTC datetimes are linearly
ordered); the date-validation layer, whose claims are about the concrete
clock fields it builds, is modelled with an explicit calendar structure.
-/

namespace Tweety

/-- One entry of a tweet's `referenced_tweets` list: a reference relation
tagged with a kind (`"quoted"`, `"retweeted"`, `"replied_to"`, …). -/
structure RefTweet where
  type : String
deriving DecidableEq, Repr

/-- A content item as the engines see it (tweet fields requested at
`src/tweety.py:171` and `:218`): id, optional creation instant, optional
reply-target user id, optional list of reference relations. -/
structure Tweet where
  id : Nat
  created_at : Option Int
  in_reply_to_user_id : Option Nat
  referenced_tweets : Option (List RefTweet)
deriving DecidableEq, Repr

/-- `bool(tweet.in_reply_to_user_id)` at `src/tweety.py:244`: Python
truthiness of `None` is `False` and of an integer is `≠ 0`. -/
def isReply (t : Tweet) : Bool :=
  match t.in_reply_to_user_id with
  | none => false
  | some u => decide (u ≠ 0)

/-- `any(rt.type == 'quoted' for rt in tweet.referenced_tweets or [])`
(`src/tweety.py:245`). -/
def isQuote (t : Tweet) : Bool :=
  (t.referenced_tweets.getD []).any (fun rt => rt.type == "quoted")

/-- `any(rt.type == 'retweeted' for rt in tweet.referenced_tweets or [])`
(`src/tweety.py:246`). -/
def isRetweet (t : Tweet) : Bool :=
  (t.referenced_tweets.getD []).any (fun rt => rt.type == "retweeted")

/-- The four content categories of the classifier (spec §4.3). -/
inductive Category where
  | Retweet
  | Reply
  | Quote
  | Original
deriving DecidableEq, Repr

/-- The classification the deletion engine implements through its branch
order at `src/tweety.py:248-268`: retweet first, then reply, then quote,
then original. -/
def classify (t : Tweet) : Category :=
  if isRetweet t then Category.Retweet
  else if isReply t then Category.Reply
  else if isQuote t then Category.Quote
  else Category.Original

/-- Observable state of one engine run: the `processed_count` and
`deleted_count` counters and the trace of items for which a delete/unlike
call was issued. -/
structure EngineState where
  processed : Nat
  deleted : Nat
  calls : List Tweet
deriving DecidableEq, Repr

/-- Counters start at zero (`src/tweety.py:162-163`, `:209-210`). -/
def initState : EngineState := ⟨0, 0, []⟩

/-- Issue one remote delete/unlike call for `t`: the call is recorded, and
the acted-on counter is incremented exactly when the remote call succeeds
(`client.delete_tweet` / `client.unlike` inside `try`, with the counter
increment on the success path only). -/
def issueDelete (ok : Nat → Bool) (st : EngineState) (t : Tweet) : EngineState :=
  { st with
    calls := st.calls ++ [t]
    deleted := st.deleted + (if ok t.id then 1 else 0) }

/-- One page from `tweepy.Paginator`: the error payload and the item list
(`page.errors`, `page.data`). -/
structure Page where
  errors : List String
  data : List Tweet
deriving DecidableEq, Repr

/-- Body of the per-item loop of `delete_likes_in_range`
(`src/tweety.py:182-196`): increment `processed_count`; if the item has a
creation instant inside `[s, e]`, issue an unlike call; otherwise (out of
range, or no creation date) skip.  No branch stops the scan. -/
def likeStep (ok : Nat → Bool) (s e : Int) (st : EngineState) (t : Tweet) : EngineState :=
  let st1 := { st with processed := st.processed + 1 }
  match t.created_at with
  | none => st1
  | some c => if s ≤ c ∧ c ≤ e then issueDelete ok st1 t else st1

/-- The inner `for liked_tweet_obj in page.data` loop. -/
def processLikes (ok : Nat → Bool) (s e : Int) : EngineState → List Tweet → EngineState
  | st, [] => st
  | st, t :: ts => processLikes ok s e (likeStep ok s e st t) ts

/-- The page loop of `delete_likes_in_range` (`src/tweety.py:169-198`):
a page reporting errors, or an empty page, breaks the loop. -/
def likesPages (ok : Nat → Bool) (s e : Int) : EngineState → List Page → EngineState
  | st, [] => st
  | st, p :: ps =>
    if p.errors ≠ [] then st
    else if p.data = [] then st
    else likesPages ok s e (processLikes ok s e st p.data) ps

/-- `delete_likes_in_range` (`src/tweety.py:159-204`), observed through its
counters and the unlike calls it issues. -/
def delete_likes_in_range (ok : Nat → Bool) (s e : Int) (pages : List Page) : EngineState :=
  likesPages ok s e initState pages

/-- Whether the per-item step of the tweets engine lets the scan continue or
stops the entire operation (the `return` at `src/tweety.py:241`). -/
inductive StepOutcome where
  | next
  | stop
deriving DecidableEq, Repr

/-- Body of the per-item loop of `delete_user_tweets_by_type`
(`src/tweety.py:229-270`): increment `processed_count`; skip items without
a creation date; `return` when the item is older than `s`; skip items newer
than `e`; skip retweets; otherwise at most one `elif` branch issues one
delete call (reply, then quote, then own post). -/
def tweetStep (ok : Nat → Bool) (s e : Int) (wr wq wo : Bool) (st : EngineState) (t : Tweet) :
    EngineState × StepOutcome :=
  let st1 := { st with processed := st.processed + 1 }
  match t.created_at with
  | none => (st1, StepOutcome.next)
  | some c =>
    if ¬ (s ≤ c ∧ c ≤ e) then
      if c < s then (st1, StepOutcome.stop) else (st1, StepOutcome.next)
    else if isRetweet t then (st1, StepOutcome.next)
    else if wr && isReply t then (issueDelete ok st1 t, StepOutcome.next)
    else if wq && isQuote t then (issueDelete ok st1 t, StepOutcome.next)
    else if wo && !(isReply t) && !(isQuote t) then (issueDelete ok st1 t, StepOutcome.next)
    else (st1, StepOutcome.next)

/-- The inner `for tweet in page.data` loop, propagating the early `return`. -/
def processTweets (ok : Nat → Bool) (s e : Int) (wr wq wo : Bool) :
    EngineState → List Tweet → EngineState × StepOutcome
  | st, [] => (st, StepOutcome.next)
  | st, t :: ts =>
    match tweetStep ok s e wr wq wo st t with
    | (st1, StepOutcome.stop) => (st1, StepOutcome.stop)
    | (st1, StepOutcome.next) => processTweets ok s e wr wq wo st1 ts

/-- The page loop of `delete_user_tweets_by_type` (`src/tweety.py:216-272`):
a page reporting errors, or an empty page, breaks the loop; an early stop
inside a page returns at once. -/
def tweetsPages (ok : Nat → Bool) (s e : Int) (wr wq wo : Bool) :
    EngineState → List Page → EngineState
  | st, [] => st
  | st, p :: ps =>
    if p.errors ≠ [] then st
    else if p.data = [] then st
    else
      match processTweets ok s e wr wq wo st p.data with
      | (st1, StepOutcome.stop) => st1
      | (st1, StepOutcome.next) => tweetsPages ok s e wr wq wo st1 ps

/-- `delete_user_tweets_by_type` (`src/tweety.py:206-278`), observed through
its counters and the delete calls it issues. -/
def delete_user_tweets_by_type (ok : Nat → Bool) (s e : Int) (wr wq wo : Bool)
    (pages : List Page) : EngineState :=
  tweetsPages ok s e wr wq wo initState pages

/-- Which deletion branch of `src/tweety.py:254-268` fires for a (non-retweet,
in-range) item: the `if`/`elif` chain makes the first match win. -/
def deletePath (wr wq wo : Bool) (t : Tweet) : Option Category :=
  if wr && isReply t then some Category.Reply
  else if wq && isQuote t then some Category.Quote
  else if wo && !(isReply t) && !(isQuote t) then some Category.Original
  else none

/-- A UTC clock value as `datetime.datetime(..., tzinfo=timezone.utc)`
builds one: explicit calendar and clock fields. -/
structure DateTimeUTC where
  year : Nat
  month : Nat
  day : Nat
  hour : Nat
  minute : Nat
  second : Nat
  microsecond : Nat
deriving DecidableEq, Repr

/-- Python's `<` on two aware datetimes with the same tzinfo: lexicographic
on (year, month, day, hour, minute, second, microsecond). -/
def dtLt (a b : DateTimeUTC) : Bool :=
  if a.year ≠ b.year then decide (a.year < b.year)
  else if a.month ≠ b.month then decide (a.month < b.month)
  else if a.day ≠ b.day then decide (a.day < b.day)
  else if a.hour ≠ b.hour then decide (a.hour < b.hour)
  else if a.minute ≠ b.minute then decide (a.minute < b.minute)
  else if a.second ≠ b.second then decide (a.second < b.second)
  else decide (a.microsecond < b.microsecond)

/-- Python's `<=` on two aware datetimes with the same tzinfo. -/
def dtLe (a b : DateTimeUTC) : Bool :=
  if a.year ≠ b.year then decide (a.year < b.year)
  else if a.month ≠ b.month then decide (a.month < b.month)
  else if a.day ≠ b.day then decide (a.day < b.day)
  else if a.hour ≠ b.hour then decide (a.hour < b.hour)
  else if a.minute ≠ b.minute then decide (a.minute < b.minute)
  else if a.second ≠ b.second then decide (a.second < b.second)
  else decide (a.microsecond ≤ b.microsecond)

/-- `datetime(start_dt.year, start_dt.month, start_dt.day, 0, 0, 0,
tzinfo=timezone.utc)` (`src/tweety.py:357`). -/
def startOfDay (y m d : Nat) : DateTimeUTC := ⟨y, m, d, 0, 0, 0, 0⟩

/-- `datetime(end_dt.year, end_dt.month, end_dt.day, 23, 59, 59, 999999,
tzinfo=timezone.utc)` (`src/tweety.py:358`). -/
def endOfDay (y m d : Nat) : DateTimeUTC := ⟨y, m, d, 23, 59, 59, 999999⟩

/-- `TwitterDeleterApp.validate_dates` (`src/tweety.py:349-369`) after
`strptime` has parsed the two `YYYY-MM-DD` entries into calendar fields:
build the range endpoints, and fail (return `None, None`) when
`start_dt_utc > end_dt_utc`. -/
def validate_dates (sy sm sd ey em ed : Nat) : Option (DateTimeUTC × DateTimeUTC) :=
  let s := startOfDay sy sm sd
  let e := endOfDay ey em ed
  if dtLt e s then none else some (s, e)

/-- Strict lexicographic order on two calendar dates. -/
def dateLt (y1 m1 d1 y2 m2 d2 : Nat) : Bool :=
  if y1 ≠ y2 then decide (y1 < y2)
  else if m1 ≠ m2 then decide (m1 < m2)
  else decide (d1 < d2)

/-- The remote operations `process_deletions` can cause, in order. -/
inductive RemoteCall where
  | resolveIdentity
  | unlike (id : Nat)
  | deleteTweet (id : Nat)
  | fetchPage
deriving DecidableEq, Repr

/-- `TwitterDeleterApp.process_deletions` (`src/tweety.py:383-433`), observed
through the trace of remote calls it causes: validation failure, no action
selected, or a declined confirmation each return before any remote call;
otherwise `get_authenticated_user_id` makes one remote call, and on success
the selected jobs run (their own remote traces are parameters here, since
the per-job behaviour is modelled by the two engine functions above). -/
def process_deletions (sy sm sd ey em ed : Nat)
    (selLikes selReplies selOwn selQuotes : Bool) (confirmed : Bool)
    (resolvedId : Option Nat)
    (likesJobCalls tweetsJobCalls : List RemoteCall) : List RemoteCall :=
  match validate_dates sy sm sd ey em ed with
  | none => []
  | some _ =>
    if !(selLikes || selReplies || selOwn || selQuotes) then []
    else if !confirmed then []
    else
      RemoteCall.resolveIdentity ::
        (match resolvedId with
         | none => []
         | some _ =>
             (if selLikes then likesJobCalls else []) ++
             (if selReplies || selOwn || selQuotes then tweetsJobCalls else []))

/-- Outcome of `initialize_tweepy_client`, distinguishing the branch that
produced `False`. -/
inductive InitOutcome where
  | envMissing
  | credsMissing
  | authErrors
  | noData
  | raised
  | ok
deriving DecidableEq, Repr

/-- Python truthiness of an `os.getenv` result: `None` and `""` are falsy. -/
def truthyStr : Option String → Bool
  | none => false
  | some s => !(s == "")

/-- `initialize_tweepy_client` (`src/tweety.py:39-115`), observed through its
outcome and the number of network calls made: missing `.env` file, or the
`all([...])` credential check at `src/tweety.py:77` failing because a value
is absent or empty, return `False` before the `tweepy.Client` is even
constructed; otherwise `get_me()` is the one network round-trip, whose
result (`raises`, `errors`, `data`) decides the remaining branches. -/
def initialize_tweepy_client (envExists : Bool)
    (apiKey apiSecret accessToken accessTokenSecret : Option String)
    (getMeRaises : Bool) (getMeErrors : List String) (getMeData : Option Nat) :
    InitOutcome × Nat :=
  if !envExists then (InitOutcome.envMissing, 0)
  else if !(truthyStr apiKey && truthyStr apiSecret &&
            truthyStr accessToken && truthyStr accessTokenSecret) then
    (InitOutcome.credsMissing, 0)
  else if getMeRaises then (InitOutcome.raised, 1)
  else if getMeErrors ≠ [] then (InitOutcome.authErrors, 1)
  else
    match getMeData with
    | none => (InitOutcome.noData, 1)
    | some _ => (InitOutcome.ok, 1)

/-! ## Shared step lemmas -/

/-- The likes loop body always increments `processed` by one. -/
lemma likeStep_processed (ok : Nat → Bool) (s e : Int) (st : EngineState) (t : Tweet) :
    (likeStep ok s e st t).processed = st.processed + 1 := by
  unfold likeStep
  cases t.created_at <;> simp [issueDelete] <;> split <;> simp [issueDelete]

/-- Any call the likes loop body records is either inherited or is the
current item, which then has an in-range creation instant. -/
lemma likeStep_calls (ok : Nat → Bool) (s e : Int) (st : EngineState) (t : Tweet) :
    ∀ t' ∈ (likeStep ok s e st t).calls,
      t' ∈ st.calls ∨ (t' = t ∧ ∃ c, t.created_at = some c ∧ s ≤ c ∧ c ≤ e) := by
  unfold likeStep
  cases hc : t.created_at with
  | none => intro t' ht'; exact Or.inl ht'
  | some c =>
    simp only
    split_ifs with hin
    · intro t' ht'
      simp only [issueDelete, List.mem_append, List.mem_singleton] at ht'
      rcases ht' with h | h
      · exact Or.inl h
      · exact Or.inr ⟨h, c, rfl, hin.1, hin.2⟩
    · intro t' ht'; exact Or.inl ht'

/-- If the unlike call for the current item fails, `deleted` is unchanged. -/
lemma likeStep_deleted_fail (ok : Nat → Bool) (s e : Int) (st : EngineState) (t : Tweet)
    (hfail : ok t.id = false) :
    (likeStep ok s e st t).deleted = st.deleted := by
  unfold likeStep
  cases t.created_at <;> simp [issueDelete, hfail] <;> split <;> simp [issueDelete, hfail]

/-- The tweets loop body always increments `processed` by one. -/
lemma tweetStep_processed (ok : Nat → Bool) (s e : Int) (wr wq wo : Bool)
    (st : EngineState) (t : Tweet) :
    (tweetStep ok s e wr wq wo st t).1.processed = st.processed + 1 := by
  unfold tweetStep
  cases t.created_at <;> simp [issueDelete] <;> split_ifs <;> simp [issueDelete]

/-- Any call the tweets loop body records is either inherited or is the
current item, which is then not a retweet and has an in-range instant. -/
lemma tweetStep_calls (ok : Nat → Bool) (s e : Int) (wr wq wo : Bool)
    (st : EngineState) (t : Tweet) :
    ∀ t' ∈ (tweetStep ok s e wr wq wo st t).1.calls,
      t' ∈ st.calls ∨
        (t' = t ∧ isRetweet t = false ∧ ∃ c, t.created_at = some c ∧ s ≤ c ∧ c ≤ e) := by
  unfold tweetStep
  cases hc : t.created_at with
  | none => intro t' ht'; exact Or.inl ht'
  | some c =>
    simp only
    split_ifs with h1 h2 h3 h4 h5 h6 <;>
      intro t' ht' <;>
      first
        | exact Or.inl ht'
        | · simp only [issueDelete, List.mem_append, List.mem_singleton] at ht'
            rcases ht' with h | h
            · exact Or.inl h
            · refine Or.inr ⟨h, ?_, c, rfl, ?_, ?_⟩ <;> simp_all

/-- The tweets loop body stops the operation exactly when the item carries a
creation instant strictly older than the range start. -/
lemma tweetStep_stop_iff (ok : Nat → Bool) (s e : Int) (wr wq wo : Bool)
    (st : EngineState) (t : Tweet) :
    (tweetStep ok s e wr wq wo st t).2 = StepOutcome.stop ↔
      ∃ c, t.created_at = some c ∧ c < s := by
  unfold tweetStep
  cases hc : t.created_at with
  | none => simp
  | some c =>
    simp only
    split_ifs with h1 h2 <;> simp_all

/-- The control-flow outcome of the tweets loop body does not depend on how
the remote delete call turns out. -/
lemma tweetStep_snd_ok_irrel (ok1 ok2 : Nat → Bool) (s e : Int) (wr wq wo : Bool)
    (st : EngineState) (t : Tweet) :
    (tweetStep ok1 s e wr wq wo st t).2 = (tweetStep ok2 s e wr wq wo st t).2 := by
  unfold tweetStep
  cases t.created_at <;> simp <;> split_ifs <;> rfl

/-- If the delete call for the current item fails, `deleted` is unchanged. -/
lemma tweetStep_deleted_fail (ok : Nat → Bool) (s e : Int) (wr wq wo : Bool)
    (st : EngineState) (t : Tweet) (hfail : ok t.id = false) :
    (tweetStep ok s e wr wq wo st t).1.deleted = st.deleted := by
  unfold tweetStep
  cases t.created_at <;> simp [issueDelete, hfail] <;> split_ifs <;>
    simp [issueDelete, hfail]

/-! ## Likes engine: list- and page-level lemmas -/

/-- The likes item loop processes every item of the list. -/
lemma processLikes_processed (ok : Nat → Bool) (s e : Int) :
    ∀ (ts : List Tweet) (st : EngineState),
      (processLikes ok s e st ts).processed = st.processed + ts.length := by
  intro ts
  induction ts with
  | nil => intro st; simp [processLikes]
  | cons t ts ih =>
    intro st
    simp only [processLikes, ih, likeStep_processed, List.length_cons]
    omega

/-- Calls recorded by the likes item loop are inherited or in-range items of
the list. -/
lemma processLikes_calls (ok : Nat → Bool) (s e : Int) :
    ∀ (ts : List Tweet) (st : EngineState),
      ∀ t' ∈ (processLikes ok s e st ts).calls,
        t' ∈ st.calls ∨ ∃ c, t'.created_at = some c ∧ s ≤ c ∧ c ≤ e := by
  intro ts
  induction ts with
  | nil => intro st t' ht'; exact Or.inl ht'
  | cons t ts ih =>
    intro st t' ht'
    rcases ih (likeStep ok s e st t) t' ht' with h | h
    · rcases likeStep_calls ok s e st t t' h with h2 | h2
      · exact Or.inl h2
      · rcases h2 with ⟨rfl, c, hc, h3, h4⟩
        exact Or.inr ⟨c, hc, h3, h4⟩
    · exact Or.inr h

/-- Over clean nonempty pages, the likes page loop processes every item. -/
lemma likesPages_processed (ok : Nat → Bool) (s e : Int) :
    ∀ (ps : List Page) (st : EngineState),
      (∀ p ∈ ps, p.errors = [] ∧ p.data ≠ []) →
      (likesPages ok s e st ps).processed = st.processed + (ps.flatMap Page.data).length := by
  intro ps
  induction ps with
  | nil => intro st _; simp [likesPages]
  | cons p ps ih =>
    intro st h
    have hp := h p (List.mem_cons_self p ps)
    have hrest : ∀ q ∈ ps, q.errors = [] ∧ q.data ≠ [] :=
      fun q hq => h q (List.mem_cons_of_mem p hq)
    simp only [likesPages, hp.1, hp.2, ite_false, ne_eq, not_true_eq_false,
      not_false_eq_true, if_neg, if_pos]
    rw [ih _ hrest, processLikes_processed]
    simp
    omega

/-- Over any pages, calls recorded by the likes page loop are inherited or
in-range. -/
lemma likesPages_calls (ok : Nat → Bool) (s e : Int) :
    ∀ (ps : List Page) (st : EngineState),
      ∀ t' ∈ (likesPages ok s e st ps).calls,
        t' ∈ st.calls ∨ ∃ c, t'.created_at = some c ∧ s ≤ c ∧ c ≤ e := by
  intro ps
  induction ps with
  | nil => intro st t' ht'; exact Or.inl ht'
  | cons p ps ih =>
    intro st t' ht'
    by_cases he : p.errors = []
    · by_cases hd : p.data = []
      · rw [likesPages, if_neg (by simp [he]), if_pos hd] at ht'
        exact Or.inl ht'
      · rw [likesPages, if_neg (by simp [he]), if_neg hd] at ht'
        rcases ih _ t' ht' with h | h
        · exact processLikes_calls ok s e p.data st t' h
        · exact Or.inr h
    · rw [likesPages, if_pos (by simp [he])] at ht'
      exact Or.inl ht'

/-! ## Page-error lemmas (both engines) -/

/-- The likes page loop treats an error-reporting page as end-of-data. -/
lemma likesPages_error_break (ok : Nat → Bool) (s e : Int) (p : Page) (ps2 : List Page)
    (h : p.errors ≠ []) :
    ∀ (ps1 : List Page) (st : EngineState),
      likesPages ok s e st (ps1 ++ p :: ps2) = likesPages ok s e st ps1 := by
  intro ps1
  induction ps1 with
  | nil => intro st; simp [likesPages, h]
  | cons q qs ih =>
    intro st
    simp only [List.cons_append, likesPages]
    by_cases hq : q.errors = []
    · by_cases hd : q.data = []
      · simp [hq, hd]
      · simp [hq, hd, ih]
    · simp [hq]

/-- The tweets page loop treats an error-reporting page as end-of-data. -/
lemma tweetsPages_error_break (ok : Nat → Bool) (s e : Int) (wr wq wo : Bool)
    (p : Page) (ps2 : List Page) (h : p.errors ≠ []) :
    ∀ (ps1 : List Page) (st : EngineState),
      tweetsPages ok s e wr wq wo st (ps1 ++ p :: ps2) =
        tweetsPages ok s e wr wq wo st ps1 := by
  intro ps1
  induction ps1 with
  | nil => intro st; simp [tweetsPages, h]
  | cons q qs ih =>
    intro st
    simp only [List.cons_append, tweetsPages]
    by_cases hq : q.errors = []
    · by_cases hd : q.data = []
      · simp [hq, hd]
      · simp only [hq, hd, ne_eq, not_true_eq_false, not_false_eq_true, ite_false,
          if_neg, reduceIte]
        rcases hpt : processTweets ok s e wr wq wo st q.data with ⟨st1, o⟩
        cases o
        · exact ih st1
        · rfl
    · simp [hq]

/-! ## Tweets engine: list- and page-level lemmas -/

/-- Calls recorded by the tweets item loop are inherited, or non-retweet
items with an in-range creation instant. -/
lemma processTweets_calls (ok : Nat → Bool) (s e : Int) (wr wq wo : Bool) :
    ∀ (ts : List Tweet) (st : EngineState),
      ∀ t' ∈ (processTweets ok s e wr wq wo st ts).1.calls,
        t' ∈ st.calls ∨
          (isRetweet t' = false ∧ ∃ c, t'.created_at = some c ∧ s ≤ c ∧ c ≤ e) := by
  intro ts
  induction ts with
  | nil => intro st t' ht'; exact Or.inl ht'
  | cons t ts ih =>
    intro st t' ht'
    have hstep := tweetStep_calls ok s e wr wq wo st t
    simp only [processTweets] at ht'
    rcases hst : tweetStep ok s e wr wq wo st t with ⟨st1, o⟩
    rw [hst] at ht' hstep
    cases o with
    | stop =>
      rcases hstep t' ht' with h | ⟨rfl, h2, h3⟩
      · exact Or.inl h
      · exact Or.inr ⟨h2, h3⟩
    | next =>
      rcases ih st1 t' ht' with h | h
      · rcases hstep t' h with h2 | ⟨rfl, h3, h4⟩
        · exact Or.inl h2
        · exact Or.inr ⟨h3, h4⟩
      · exact Or.inr h

/-- Calls recorded by the tweets page loop are inherited, or non-retweet
items with an in-range creation instant. -/
lemma tweetsPages_calls (ok : Nat → Bool) (s e : Int) (wr wq wo : Bool) :
    ∀ (ps : List Page) (st : EngineState),
      ∀ t' ∈ (tweetsPages ok s e wr wq wo st ps).calls,
        t' ∈ st.calls ∨
          (isRetweet t' = false ∧ ∃ c, t'.created_at = some c ∧ s ≤ c ∧ c ≤ e) := by
  intro ps
  induction ps with
  | nil => intro st t' ht'; exact Or.inl ht'
  | cons p ps ih =>
    intro st t' ht'
    simp only [tweetsPages] at ht'
    by_cases he : p.errors = []
    · by_cases hd : p.data = []
      · rw [if_neg (by simp [he]), if_pos hd] at ht'
        exact Or.inl ht'
      · rw [if_neg (by simp [he]), if_neg hd] at ht'
        have hpt2 := processTweets_calls ok s e wr wq wo p.data st
        rcases hpt : processTweets ok s e wr wq wo st p.data with ⟨st1, o⟩
        rw [hpt] at ht' hpt2
        cases o with
        | stop => exact hpt2 t' ht'
        | next =>
          rcases ih st1 t' ht' with h | h
          · exact hpt2 t' h
          · exact Or.inr h
    · rw [if_pos (by simp [he])] at ht'
      exact Or.inl ht'

/-- An item older than the range start makes the tweets loop body stop,
touching nothing but the `processed` counter. -/
lemma tweetStep_old (ok : Nat → Bool) (s e : Int) (wr wq wo : Bool)
    (st : EngineState) (t : Tweet) (ck : Int)
    (hk : t.created_at = some ck) (hck : ck < s) :
    tweetStep ok s e wr wq wo st t =
      ({ st with processed := st.processed + 1 }, StepOutcome.stop) := by
  unfold tweetStep
  rw [hk]
  simp only
  rw [if_pos (by omega), if_pos hck]

/-- An item whose creation instant is not older than the range start never
stops the tweets loop. -/
lemma tweetStep_snd_next (ok : Nat → Bool) (s e : Int) (wr wq wo : Bool)
    (st : EngineState) (t : Tweet) (c : Int)
    (hc : t.created_at = some c) (hge : s ≤ c) :
    (tweetStep ok s e wr wq wo st t).2 = StepOutcome.next := by
  cases ho : (tweetStep ok s e wr wq wo st t).2 with
  | next => rfl
  | stop =>
    rcases (tweetStep_stop_iff ok s e wr wq wo st t).1 ho with ⟨c2, hc2, hlt⟩
    rw [hc] at hc2
    injection hc2 with h
    omega

/-- Over a list of items none of which is older than the range start, the
tweets item loop never stops, processes every item, and only records calls
for members of the list. -/
lemma processTweets_no_old (ok : Nat → Bool) (s e : Int) (wr wq wo : Bool) :
    ∀ (ts : List Tweet) (st : EngineState),
      (∀ t ∈ ts, ∃ c, t.created_at = some c ∧ s ≤ c) →
      (processTweets ok s e wr wq wo st ts).2 = StepOutcome.next
      ∧ (processTweets ok s e wr wq wo st ts).1.processed = st.processed + ts.length
      ∧ ∀ t' ∈ (processTweets ok s e wr wq wo st ts).1.calls,
          t' ∈ st.calls ∨ t' ∈ ts := by
  intro ts
  induction ts with
  | nil =>
    intro st _
    refine ⟨rfl, by simp [processTweets], ?_⟩
    intro t' ht'; exact Or.inl ht'
  | cons t ts ih =>
    intro st h
    rcases h t (List.mem_cons_self t ts) with ⟨c, hc, hge⟩
    have hrest : ∀ u ∈ ts, ∃ c, u.created_at = some c ∧ s ≤ c :=
      fun u hu => h u (List.mem_cons_of_mem t hu)
    have hnext := tweetStep_snd_next ok s e wr wq wo st t c hc hge
    have hproc := tweetStep_processed ok s e wr wq wo st t
    have hcalls := tweetStep_calls ok s e wr wq wo st t
    rcases hst : tweetStep ok s e wr wq wo st t with ⟨st1, o⟩
    rw [hst] at hnext hproc hcalls
    simp only at hnext
    subst hnext
    have hred : processTweets ok s e wr wq wo st (t :: ts) =
        processTweets ok s e wr wq wo st1 ts := by
      simp only [processTweets, hst]
    rcases ih st1 hrest with ⟨ih1, ih2, ih3⟩
    refine ⟨by rw [hred]; exact ih1, ?_, ?_⟩
    · rw [hred, ih2]
      simp only at hproc
      rw [hproc, List.length_cons]
      omega
    · intro t' ht'
      rw [hred] at ht'
      rcases ih3 t' ht' with h1 | h1
      · rcases hcalls t' h1 with h2 | ⟨rfl, _, _⟩
        · exact Or.inl h2
        · exact Or.inr (List.mem_cons_self t' ts)
      · exact Or.inr (List.mem_cons_of_mem t h1)

/-- When a first too-old item `tk` follows a block of not-too-old items, the
tweets item loop stops exactly at `tk`: the outcome is `stop`, `processed`
grows by the block length plus one, only block members are called, and the
result does not depend on anything after `tk`. -/
lemma processTweets_stop_at (ok : Nat → Bool) (s e : Int) (wr wq wo : Bool)
    (tk : Tweet) (ck : Int) (hk : tk.created_at = some ck) (hck : ck < s) :
    ∀ (front : List Tweet) (st : EngineState),
      (∀ t ∈ front, ∃ c, t.created_at = some c ∧ s ≤ c) →
      ∀ (rest : List Tweet),
        (processTweets ok s e wr wq wo st (front ++ tk :: rest)).2 = StepOutcome.stop
        ∧ (processTweets ok s e wr wq wo st (front ++ tk :: rest)).1.processed
            = st.processed + front.length + 1
        ∧ (∀ t' ∈ (processTweets ok s e wr wq wo st (front ++ tk :: rest)).1.calls,
            t' ∈ st.calls ∨ t' ∈ front)
        ∧ ∀ (rest2 : List Tweet),
            processTweets ok s e wr wq wo st (front ++ tk :: rest)
              = processTweets ok s e wr wq wo st (front ++ tk :: rest2) := by
  intro front
  induction front with
  | nil =>
    intro st _ rest
    have hred : ∀ (r : List Tweet),
        processTweets ok s e wr wq wo st ([] ++ tk :: r) =
          ({ st with processed := st.processed + 1 }, StepOutcome.stop) := by
      intro r
      simp only [List.nil_append, processTweets,
        tweetStep_old ok s e wr wq wo st tk ck hk hck]
    refine ⟨by rw [hred], by rw [hred]; simp, ?_, ?_⟩
    · intro t' ht'
      rw [hred] at ht'
      exact Or.inl ht'
    · intro rest2
      rw [hred, hred]
  | cons t front ih =>
    intro st h rest
    rcases h t (List.mem_cons_self t front) with ⟨c, hc, hge⟩
    have hrest : ∀ u ∈ front, ∃ c, u.created_at = some c ∧ s ≤ c :=
      fun u hu => h u (List.mem_cons_of_mem t hu)
    have hnext := tweetStep_snd_next ok s e wr wq wo st t c hc hge
    have hproc := tweetStep_processed ok s e wr wq wo st t
    have hcalls := tweetStep_calls ok s e wr wq wo st t
    rcases hst : tweetStep ok s e wr wq wo st t with ⟨st1, o⟩
    rw [hst] at hnext hproc hcalls
    simp only at hnext hproc
    subst hnext
    have hred : ∀ (r : List Tweet),
        processTweets ok s e wr wq wo st ((t :: front) ++ tk :: r) =
          processTweets ok s e wr wq wo st1 (front ++ tk :: r) := by
      intro r
      simp only [List.cons_append, processTweets, hst]
      rfl
    rcases ih st1 hrest rest with ⟨ih1, ih2, ih3, ih4⟩
    refine ⟨by rw [hred]; exact ih1, ?_, ?_, ?_⟩
    · rw [hred, ih2, hproc, List.length_cons]
      omega
    · intro t' ht'
      rw [hred] at ht'
      rcases ih3 t' ht' with h1 | h1
      · rcases hcalls t' h1 with h2 | ⟨rfl, _, _⟩
        · exact Or.inl h2
        · exact Or.inr (List.mem_cons_self t' front)
      · exact Or.inr (List.mem_cons_of_mem t h1)
    · intro rest2
      rw [hred, hred, ih4 rest2]

/-- Page-level early stop: clean pages of not-too-old items followed by a
page whose data is a not-too-old block, then a too-old item `tk`.  The page
loop stops at `tk`, having processed exactly the items up to and including
`tk`, calling only earlier items, independent of everything after `tk`. -/
lemma tweetsPages_stop_at (ok : Nat → Bool) (s e : Int) (wr wq wo : Bool)
    (tk : Tweet) (ck : Int) (hk : tk.created_at = some ck) (hck : ck < s)
    (front : List Tweet) (hfront : ∀ t ∈ front, ∃ c, t.created_at = some c ∧ s ≤ c) :
    ∀ (ps1 : List Page) (st : EngineState),
      (∀ p ∈ ps1, p.errors = [] ∧ p.data ≠ [] ∧
        ∀ t ∈ p.data, ∃ c, t.created_at = some c ∧ s ≤ c) →
      ∀ (rest : List Tweet) (ps2 : List Page),
        (tweetsPages ok s e wr wq wo st (ps1 ++ ⟨[], front ++ tk :: rest⟩ :: ps2)).processed
            = st.processed + (ps1.flatMap Page.data).length + front.length + 1
        ∧ (∀ t' ∈ (tweetsPages ok s e wr wq wo st
              (ps1 ++ ⟨[], front ++ tk :: rest⟩ :: ps2)).calls,
            t' ∈ st.calls ∨ t' ∈ ps1.flatMap Page.data ∨ t' ∈ front)
        ∧ ∀ (rest2 : List Tweet) (ps3 : List Page),
            tweetsPages ok s e wr wq wo st (ps1 ++ ⟨[], front ++ tk :: rest⟩ :: ps2)
              = tweetsPages ok s e wr wq wo st (ps1 ++ ⟨[], front ++ tk :: rest2⟩ :: ps3) := by
  intro ps1
  induction ps1 with
  | nil =>
    intro st _ rest ps2
    have hstop := processTweets_stop_at ok s e wr wq wo tk ck hk hck front st hfront
    have hred : ∀ (r : List Tweet) (qs : List Page),
        tweetsPages ok s e wr wq wo st ([] ++ (⟨[], front ++ tk :: r⟩ : Page) :: qs)
          = (processTweets ok s e wr wq wo st (front ++ tk :: r)).1 := by
      intro r qs
      simp only [List.nil_append, tweetsPages]
      rw [if_neg (by simp), if_neg (by simp)]
      rcases hpt : processTweets ok s e wr wq wo st (front ++ tk :: r) with ⟨st1, o⟩
      rcases hstop r with ⟨h1, _⟩
      rw [hpt] at h1
      simp only at h1
      subst h1
      rfl
    rcases hstop rest with ⟨_, h2, h3, h4⟩
    refine ⟨?_, ?_, ?_⟩
    · rw [hred]
      simpa using h2
    · intro t' ht'
      rw [hred] at ht'
      rcases h3 t' ht' with h | h
      · exact Or.inl h
      · exact Or.inr (Or.inr h)
    · intro rest2 ps3
      rw [hred, hred, h4 rest2]
  | cons p ps1 ih =>
    intro st h rest ps2
    rcases h p (List.mem_cons_self p ps1) with ⟨he, hd, hitems⟩
    have hrest : ∀ q ∈ ps1, q.errors = [] ∧ q.data ≠ [] ∧
        ∀ t ∈ q.data, ∃ c, t.created_at = some c ∧ s ≤ c :=
      fun q hq => h q (List.mem_cons_of_mem p hq)
    rcases processTweets_no_old ok s e wr wq wo p.data st hitems with ⟨h1, h2, h3⟩
    rcases hpt : processTweets ok s e wr wq wo st p.data with ⟨st1, o⟩
    rw [hpt] at h1 h2 h3
    simp only at h1 h2
    subst h1
    have hred : ∀ (r : List Tweet) (qs : List Page),
        tweetsPages ok s e wr wq wo st ((p :: ps1) ++ (⟨[], front ++ tk :: r⟩ : Page) :: qs)
          = tweetsPages ok s e wr wq wo st1 (ps1 ++ (⟨[], front ++ tk :: r⟩ : Page) :: qs) := by
      intro r qs
      simp only [List.cons_append, tweetsPages]
      rw [if_neg (by simp [he]), if_neg hd, hpt]
      rfl
    rcases ih st1 hrest rest ps2 with ⟨ih1, ih2, ih3⟩
    refine ⟨?_, ?_, ?_⟩
    · rw [hred, ih1, h2]
      simp [List.length_append]
      omega
    · intro t' ht'
      rw [hred] at ht'
      rcases ih2 t' ht' with h4 | h4
      · rcases h3 t' h4 with h5 | h5
        · exact Or.inl h5
        · exact Or.inr (Or.inl (by simp [h5]))
      · rcases h4 with h4 | h4
        · exact Or.inr (Or.inl (by simp [h4]))
        · exact Or.inr (Or.inr h4)
    · intro rest2 ps3
      rw [hred, hred, ih3 rest2 ps3]

/-! ## Date-order lemmas -/

/-- If a day-end clock value is not strictly before a day-start clock value,
the day-start value is lexicographically at most the day-end value. -/
lemma dtLe_of_not_dtLt (sy sm sd ey em ed : Nat)
    (h : dtLt (endOfDay ey em ed) (startOfDay sy sm sd) = false) :
    dtLe (startOfDay sy sm sd) (endOfDay ey em ed) = true := by
  unfold dtLt dtLe startOfDay endOfDay at *
  simp only at *
  split_ifs at * <;> simp_all <;> omega

/-- A strictly later start date makes the constructed range start strictly
after the constructed range end. -/
lemma dtLt_of_dateLt (sy sm sd ey em ed : Nat)
    (h : dateLt ey em ed sy sm sd = true) :
    dtLt (endOfDay ey em ed) (startOfDay sy sm sd) = true := by
  unfold dateLt at h
  unfold dtLt startOfDay endOfDay
  simp only at *
  split_ifs at * <;> simp_all <;> omega

/-! ## Claims -/

/-- C1: every authored item with a reference relation tagged "retweeted" is
classified `Retweet`, whatever its other fields, and
`delete_user_tweets_by_type` never issues a delete call for it, for any
remote oracle, range, flags and page stream. -/
theorem C1_retweet_classified_and_never_deleted (t : Tweet) (h : isRetweet t = true) :
    classify t = Category.Retweet ∧
    ∀ (ok : Nat → Bool) (s e : Int) (wr wq wo : Bool) (pages : List Page),
      t ∉ (delete_user_tweets_by_type ok s e wr wq wo pages).calls := by
  constructor
  · simp [classify, h]
  · intro ok s e wr wq wo pages hmem
    unfold delete_user_tweets_by_type at hmem
    rcases tweetsPages_calls ok s e wr wq wo pages initState t hmem with h1 | ⟨h1, _⟩
    · simp [initState] at h1
    · rw [h] at h1
      cases h1

/-- Witness for C1 at a retweet that is also a reply and a quote. -/
theorem C1_witness :
    isRetweet ⟨7, some 5, some 3, some [⟨"quoted"⟩, ⟨"retweeted"⟩]⟩ = true
    ∧ classify ⟨7, some 5, some 3, some [⟨"quoted"⟩, ⟨"retweeted"⟩]⟩ = Category.Retweet
    ∧ (⟨7, some 5, some 3, some [⟨"quoted"⟩, ⟨"retweeted"⟩]⟩ : Tweet) ∉
        (delete_user_tweets_by_type (fun _ => true) 0 10 true true true
          [⟨[], [⟨7, some 5, some 3, some [⟨"quoted"⟩, ⟨"retweeted"⟩]⟩]⟩]).calls := by
  refine ⟨by decide, ?_, ?_⟩
  · exact (C1_retweet_classified_and_never_deleted
      ⟨7, some 5, some 3, some [⟨"quoted"⟩, ⟨"retweeted"⟩]⟩ (by decide)).1
  · exact (C1_retweet_classified_and_never_deleted
      ⟨7, some 5, some 3, some [⟨"quoted"⟩, ⟨"retweeted"⟩]⟩ (by decide)).2
      (fun _ => true) 0 10 true true true
      [⟨[], [⟨7, some 5, some 3, some [⟨"quoted"⟩, ⟨"retweeted"⟩]⟩]⟩]

/-- C2: for a non-retweet item inside the range, the loop body of
`delete_user_tweets_by_type` fires exactly the first matching deletion path
(Reply if `wr`, else Quote if `wq`, else Original if `wo` and neither reply
nor quote), issues at most one delete call, and for an item that is both a
reply and a quote with both flags set it issues exactly one call via the
Reply path. -/
theorem C2_first_match_single_delete (ok : Nat → Bool) (s e : Int) (wr wq wo : Bool)
    (st : EngineState) (t : Tweet) (c : Int)
    (hc : t.created_at = some c) (h1 : s ≤ c) (h2 : c ≤ e) (hrt : isRetweet t = false) :
    tweetStep ok s e wr wq wo st t =
      ((match deletePath wr wq wo t with
        | some _ => issueDelete ok { st with processed := st.processed + 1 } t
        | none => { st with processed := st.processed + 1 }), StepOutcome.next)
    ∧ (tweetStep ok s e wr wq wo st t).1.calls.length ≤ st.calls.length + 1
    ∧ (isReply t = true → isQuote t = true → wr = true → wq = true →
        deletePath wr wq wo t = some Category.Reply ∧
        (tweetStep ok s e wr wq wo st t).1.calls = st.calls ++ [t]) := by
  have hmain : tweetStep ok s e wr wq wo st t =
      ((match deletePath wr wq wo t with
        | some _ => issueDelete ok { st with processed := st.processed + 1 } t
        | none => { st with processed := st.processed + 1 }), StepOutcome.next) := by
    unfold tweetStep deletePath
    rw [hc]
    simp only
    rw [if_neg (not_not_intro ⟨h1, h2⟩), if_neg (by simp [hrt])]
    cases hA : wr && isReply t <;> cases hB : wq && isQuote t <;>
      cases hC : wo && !(isReply t) && !(isQuote t) <;> simp [hA, hB, hC]
  refine ⟨hmain, ?_, ?_⟩
  · rw [hmain]
    cases hdp : deletePath wr wq wo t <;> simp [hdp, issueDelete]
  · intro hr hq hwr hwq
    subst hwr
    subst hwq
    have hdp : deletePath true true wo t = some Category.Reply := by
      simp [deletePath, hr]
    refine ⟨hdp, ?_⟩
    rw [hmain, hdp]
    simp [issueDelete]

/-- Witness for C2 at an item that is both a reply and a quote, with all
flags set: exactly one call, on the Reply path. -/
theorem C2_witness :
    deletePath true true true ⟨9, some 5, some 2, some [⟨"quoted"⟩]⟩ = some Category.Reply
    ∧ (tweetStep (fun _ => true) 0 10 true true true initState
        ⟨9, some 5, some 2, some [⟨"quoted"⟩]⟩).1.calls
      = initState.calls ++ [⟨9, some 5, some 2, some [⟨"quoted"⟩]⟩] := by
  have h := (C2_first_match_single_delete (fun _ => true) 0 10 true true true initState
      ⟨9, some 5, some 2, some [⟨"quoted"⟩]⟩ 5 rfl (by decide) (by decide)
      (by decide)).2.2 (by decide) (by decide) rfl rfl
  exact ⟨h.1, h.2⟩

/-- C3: on a stream whose items all carry creation instants, where the items
before `tk` are not older than the range start and `tk` is, the engine stops
the whole operation at `tk`: the result does not depend on anything in the
stream after `tk`, no delete call is issued for `tk` or anything after the
items before it, and `processed` counts exactly the items up to and
including `tk` (the 1-indexed position of `tk`), not the full stream. -/
theorem C3_early_stop (ok : Nat → Bool) (s e : Int) (wr wq wo : Bool)
    (ps1 : List Page) (front : List Tweet) (tk : Tweet) (ck : Int)
    (hk : tk.created_at = some ck) (hck : ck < s)
    (hps1 : ∀ p ∈ ps1, p.errors = [] ∧ p.data ≠ [] ∧
      ∀ t ∈ p.data, ∃ c, t.created_at = some c ∧ s ≤ c)
    (hfront : ∀ t ∈ front, ∃ c, t.created_at = some c ∧ s ≤ c) :
    ∀ (rest : List Tweet) (ps2 : List Page),
      (delete_user_tweets_by_type ok s e wr wq wo
          (ps1 ++ ⟨[], front ++ tk :: rest⟩ :: ps2)).processed
        = (ps1.flatMap Page.data).length + front.length + 1
      ∧ (∀ t' ∈ (delete_user_tweets_by_type ok s e wr wq wo
            (ps1 ++ ⟨[], front ++ tk :: rest⟩ :: ps2)).calls,
          t' ∈ ps1.flatMap Page.data ∨ t' ∈ front)
      ∧ ∀ (rest2 : List Tweet) (ps3 : List Page),
          delete_user_tweets_by_type ok s e wr wq wo
              (ps1 ++ ⟨[], front ++ tk :: rest⟩ :: ps2)
            = delete_user_tweets_by_type ok s e wr wq wo
              (ps1 ++ ⟨[], front ++ tk :: rest2⟩ :: ps3) := by
  intro rest ps2
  unfold delete_user_tweets_by_type
  rcases tweetsPages_stop_at ok s e wr wq wo tk ck hk hck front hfront ps1 initState
    hps1 rest ps2 with ⟨h1, h2, h3⟩
  refine ⟨by simpa [initState] using h1, ?_, h3⟩
  intro t' ht'
  rcases h2 t' ht' with h | h
  · simp [initState] at h
  · exact h

/-- Witness for C3: pages `[[t 15]], [[t 12], [t 5], [t 1]]` against range
`[10, 20]` stop at the item dated 5, the third item, so `processed = 3`. -/
theorem C3_witness :
    (delete_user_tweets_by_type (fun _ => true) 10 20 true true true
        [⟨[], [⟨1, some 15, none, none⟩]⟩,
         ⟨[], [⟨2, some 12, none, none⟩, ⟨3, some 5, none, none⟩,
               ⟨4, some 1, none, none⟩]⟩]).processed = 3 := by
  have h := (C3_early_stop (fun _ => true) 10 20 true true true
      [⟨[], [⟨1, some 15, none, none⟩]⟩] [⟨2, some 12, none, none⟩]
      ⟨3, some 5, none, none⟩ 5 rfl (by decide)
      (by
        intro p hp
        simp only [List.mem_singleton] at hp
        subst hp
        refine ⟨rfl, by decide, ?_⟩
        intro t ht
        simp only [List.mem_singleton] at ht
        subst ht
        exact ⟨15, rfl, by decide⟩)
      (by
        intro t ht
        simp only [List.mem_singleton] at ht
        subst ht
        exact ⟨12, rfl, by decide⟩)
      [⟨4, some 1, none, none⟩] []).1
  simpa using h

/-- C4: over a stream of clean nonempty pages, `delete_likes_in_range` never
stops early: `processed` equals the total number of items in the stream, and
every unlike call it issues is for an item whose creation instant lies
inside `[s, e]` (out-of-range items are skipped without a call). -/
theorem C4_likes_no_early_stop (ok : Nat → Bool) (s e : Int) (pages : List Page)
    (h : ∀ p ∈ pages, p.errors = [] ∧ p.data ≠ []) :
    (delete_likes_in_range ok s e pages).processed = (pages.flatMap Page.data).length
    ∧ ∀ t ∈ (delete_likes_in_range ok s e pages).calls,
        ∃ c, t.created_at = some c ∧ s ≤ c ∧ c ≤ e := by
  unfold delete_likes_in_range
  constructor
  · rw [likesPages_processed ok s e pages initState h]
    simp [initState]
  · intro t ht
    rcases likesPages_calls ok s e pages initState t ht with h1 | h1
    · simp [initState] at h1
    · exact h1

/-- Witness for C4: a stream with one in-range and one out-of-range liked
tweet is scanned to the end, `processed = 2`. -/
theorem C4_witness :
    (delete_likes_in_range (fun _ => true) 0 10
        [⟨[], [⟨1, some 5, none, none⟩, ⟨2, some 50, none, none⟩]⟩]).processed = 2 := by
  have h := (C4_likes_no_early_stop (fun _ => true) 0 10
      [⟨[], [⟨1, some 5, none, none⟩, ⟨2, some 50, none, none⟩]⟩]
      (by
        intro p hp
        simp only [List.mem_singleton] at hp
        subst hp
        exact ⟨rfl, by decide⟩)).1
  simpa using h

/-- C5: whenever `validate_dates` constructs a range, the start is the start
date at 00:00:00.000000 UTC, the end is the end date at 23:59:59.999999 UTC,
and start ≤ end; for two equal calendar dates the construction succeeds with
exactly that range. -/
theorem C5_range_endpoints (sy sm sd ey em ed : Nat) :
    (∀ s e, validate_dates sy sm sd ey em ed = some (s, e) →
        s = ⟨sy, sm, sd, 0, 0, 0, 0⟩ ∧ e = ⟨ey, em, ed, 23, 59, 59, 999999⟩
        ∧ dtLe s e = true)
    ∧ (sy = ey → sm = em → sd = ed →
        validate_dates sy sm sd ey em ed =
          some (⟨sy, sm, sd, 0, 0, 0, 0⟩, ⟨sy, sm, sd, 23, 59, 59, 999999⟩)) := by
  constructor
  · intro s e hv
    unfold validate_dates at hv
    by_cases hlt : dtLt (endOfDay ey em ed) (startOfDay sy sm sd) = true
    · rw [if_pos hlt] at hv
      cases hv
    · have hlt2 : dtLt (endOfDay ey em ed) (startOfDay sy sm sd) = false := by
        simpa using hlt
      rw [if_neg (by simp [hlt2])] at hv
      simp only [Option.some.injEq, Prod.mk.injEq] at hv
      obtain ⟨hs, he⟩ := hv
      subst hs
      subst he
      exact ⟨rfl, rfl, dtLe_of_not_dtLt sy sm sd ey em ed hlt2⟩
  · intro hy hm hd
    subst hy
    subst hm
    subst hd
    simp [validate_dates, dtLt, startOfDay, endOfDay]

/-- Witness for C5 at the equal pair 2024-05-05. -/
theorem C5_witness :
    validate_dates 2024 5 5 2024 5 5 =
      some (⟨2024, 5, 5, 0, 0, 0, 0⟩, ⟨2024, 5, 5, 23, 59, 59, 999999⟩)
    ∧ dtLe ⟨2024, 5, 5, 0, 0, 0, 0⟩ ⟨2024, 5, 5, 23, 59, 59, 999999⟩ = true := by
  have h := (C5_range_endpoints 2024 5 5 2024 5 5).2 rfl rfl rfl
  exact ⟨h, ((C5_range_endpoints 2024 5 5 2024 5 5).1 _ _ h).2.2⟩

/-- C6: a start date strictly after the end date makes `validate_dates`
fail, and then `process_deletions` returns before causing any remote call,
whatever the selections, confirmation, identity resolution or job traces
would have been. -/
theorem C6_inverted_range_no_calls (sy sm sd ey em ed : Nat)
    (h : dateLt ey em ed sy sm sd = true) :
    validate_dates sy sm sd ey em ed = none
    ∧ ∀ (selLikes selReplies selOwn selQuotes confirmed : Bool)
        (resolvedId : Option Nat) (likesJobCalls tweetsJobCalls : List RemoteCall),
        process_deletions sy sm sd ey em ed selLikes selReplies selOwn selQuotes
          confirmed resolvedId likesJobCalls tweetsJobCalls = [] := by
  have hlt := dtLt_of_dateLt sy sm sd ey em ed h
  have hv : validate_dates sy sm sd ey em ed = none := by
    unfold validate_dates
    rw [if_pos hlt]
  refine ⟨hv, ?_⟩
  intro selLikes selReplies selOwn selQuotes confirmed resolvedId lj tj
  simp [process_deletions, hv]

/-- Witness for C6 on 2024-01-02 .. 2024-01-01. -/
theorem C6_witness :
    validate_dates 2024 1 2 2024 1 1 = none
    ∧ process_deletions 2024 1 2 2024 1 1 true true true true true (some 1)
        [RemoteCall.unlike 4] [RemoteCall.deleteTweet 5] = [] := by
  have h := C6_inverted_range_no_calls 2024 1 2 2024 1 1 (by decide)
  exact ⟨h.1, h.2 true true true true true (some 1)
    [RemoteCall.unlike 4] [RemoteCall.deleteTweet 5]⟩

/-- C7: with the credentials file present, if any of the four secrets is
absent or empty, `initialize_tweepy_client` fails with the
missing-credential outcome and makes zero network calls, whatever the
remote identity call would have returned. -/
theorem C7_missing_credential_no_network (apiKey apiSecret accessToken accessTokenSecret : Option String)
    (h : truthyStr apiKey = false ∨ truthyStr apiSecret = false ∨
         truthyStr accessToken = false ∨ truthyStr accessTokenSecret = false) :
    ∀ (getMeRaises : Bool) (getMeErrors : List String) (getMeData : Option Nat),
      initialize_tweepy_client true apiKey apiSecret accessToken accessTokenSecret
        getMeRaises getMeErrors getMeData = (InitOutcome.credsMissing, 0) := by
  intro gr ge gd
  rcases h with h | h | h | h <;> simp [initialize_tweepy_client, h]

/-- Witness for C7 with an empty access token. -/
theorem C7_witness :
    initialize_tweepy_client true (some "k") (some "s") (some "") (some "ts")
      false [] (some 1) = (InitOutcome.credsMissing, 0) :=
  C7_missing_credential_no_network (some "k") (some "s") (some "") (some "ts")
    (Or.inr (Or.inr (Or.inl (by decide)))) false [] (some 1)

/-- C8: in both engine operations, a page that reports errors ends the job
there, as if the data had ended: the result over the stream with the bad
page and anything after it equals the result over the pages before it, so
no item of the bad page or a later page is processed or deleted and the
counts accumulated so far are kept. -/
theorem C8_error_page_ends_job (ok : Nat → Bool) (s e : Int) (wr wq wo : Bool)
    (ps1 ps2 : List Page) (p : Page) (h : p.errors ≠ []) :
    delete_likes_in_range ok s e (ps1 ++ p :: ps2) = delete_likes_in_range ok s e ps1
    ∧ delete_user_tweets_by_type ok s e wr wq wo (ps1 ++ p :: ps2)
        = delete_user_tweets_by_type ok s e wr wq wo ps1 := by
  unfold delete_likes_in_range delete_user_tweets_by_type
  exact ⟨likesPages_error_break ok s e p ps2 h ps1 initState,
    tweetsPages_error_break ok s e wr wq wo p ps2 h ps1 initState⟩

/-- Witness for C8: a clean page, then an error page, then another page. -/
theorem C8_witness :
    delete_likes_in_range (fun _ => true) 0 10
        ([⟨[], [⟨1, some 5, none, none⟩]⟩] ++
          (⟨["boom"], [⟨2, some 6, none, none⟩]⟩ : Page) ::
            [⟨[], [⟨3, some 7, none, none⟩]⟩])
      = delete_likes_in_range (fun _ => true) 0 10 [⟨[], [⟨1, some 5, none, none⟩]⟩]
    ∧ delete_user_tweets_by_type (fun _ => true) 0 10 true true true
        ([⟨[], [⟨1, some 5, none, none⟩]⟩] ++
          (⟨["boom"], [⟨2, some 6, none, none⟩]⟩ : Page) ::
            [⟨[], [⟨3, some 7, none, none⟩]⟩])
      = delete_user_tweets_by_type (fun _ => true) 0 10 true true true
          [⟨[], [⟨1, some 5, none, none⟩]⟩] :=
  C8_error_page_ends_job (fun _ => true) 0 10 true true true
    [⟨[], [⟨1, some 5, none, none⟩]⟩] [⟨[], [⟨3, some 7, none, none⟩]⟩]
    ⟨["boom"], [⟨2, some 6, none, none⟩]⟩ (by simp)

/-- C9: when the remote unlike/delete call for an item fails, both engines
count the item as processed, leave the acted-on counter unchanged, and go on
with the next item: the failure never changes the control-flow outcome, and
both loops continue past the item. -/
theorem C9_item_failure_continues (ok ok2 : Nat → Bool) (s e : Int) (wr wq wo : Bool)
    (st : EngineState) (t : Tweet) (ts : List Tweet) (hfail : ok t.id = false) :
    (likeStep ok s e st t).processed = st.processed + 1
    ∧ (tweetStep ok s e wr wq wo st t).1.processed = st.processed + 1
    ∧ (likeStep ok s e st t).deleted = st.deleted
    ∧ (tweetStep ok s e wr wq wo st t).1.deleted = st.deleted
    ∧ (tweetStep ok s e wr wq wo st t).2 = (tweetStep ok2 s e wr wq wo st t).2
    ∧ processLikes ok s e st (t :: ts) = processLikes ok s e (likeStep ok s e st t) ts
    ∧ (∀ st2, tweetStep ok s e wr wq wo st t = (st2, StepOutcome.next) →
        processTweets ok s e wr wq wo st (t :: ts)
          = processTweets ok s e wr wq wo st2 ts) := by
  refine ⟨likeStep_processed ok s e st t, tweetStep_processed ok s e wr wq wo st t,
    likeStep_deleted_fail ok s e st t hfail,
    tweetStep_deleted_fail ok s e wr wq wo st t hfail,
    tweetStep_snd_ok_irrel ok ok2 s e wr wq wo st t, rfl, ?_⟩
  intro st2 h2
  simp [processTweets, h2]

/-- Witness for C9 at an in-range reply whose delete call fails. -/
theorem C9_witness :
    (likeStep (fun _ => false) 0 10 initState ⟨5, some 3, some 1, none⟩).processed
        = initState.processed + 1
    ∧ (likeStep (fun _ => false) 0 10 initState ⟨5, some 3, some 1, none⟩).deleted
        = initState.deleted := by
  have h := C9_item_failure_continues (fun _ => false) (fun _ => true) 0 10
    true true true initState ⟨5, some 3, some 1, none⟩ [] rfl
  exact ⟨h.1, h.2.2.1⟩

/-- C10: an item without a creation timestamp is handled conservatively by
both engines: it is counted as processed, no unlike/delete call is issued
for it, it never triggers the early stop, and scanning continues with the
next item. -/
theorem C10_missing_timestamp_conservative (ok : Nat → Bool) (s e : Int) (wr wq wo : Bool)
    (st : EngineState) (t : Tweet) (ts : List Tweet) (h : t.created_at = none) :
    likeStep ok s e st t = { st with processed := st.processed + 1 }
    ∧ tweetStep ok s e wr wq wo st t
        = ({ st with processed := st.processed + 1 }, StepOutcome.next)
    ∧ processLikes ok s e st (t :: ts)
        = processLikes ok s e { st with processed := st.processed + 1 } ts
    ∧ processTweets ok s e wr wq wo st (t :: ts)
        = processTweets ok s e wr wq wo { st with processed := st.processed + 1 } ts := by
  have hl : likeStep ok s e st t = { st with processed := st.processed + 1 } := by
    unfold likeStep
    rw [h]
  have ht : tweetStep ok s e wr wq wo st t
      = ({ st with processed := st.processed + 1 }, StepOutcome.next) := by
    unfold tweetStep
    rw [h]
  refine ⟨hl, ht, ?_, ?_⟩
  · simp [processLikes, hl]
  · simp [processTweets, ht]

/-- Witness for C10 at a dateless item. -/
theorem C10_witness :
    likeStep (fun _ => true) 0 10 initState ⟨8, none, none, none⟩ = ⟨1, 0, []⟩
    ∧ tweetStep (fun _ => true) 0 10 true true true initState ⟨8, none, none, none⟩
        = (⟨1, 0, []⟩, StepOutcome.next) := by
  have h := C10_missing_timestamp_conservative (fun _ => true) 0 10 true true true
    initState ⟨8, none, none, none⟩ [] rfl
  exact ⟨h.1, h.2.1⟩

end Tweety
